import Mathlib

/-! activity-notifier: a shallow embedding of `main.go`.

The program is one `main` function made of five consecutive blocks:

* the activity scan (lines 35-64), which pages through the user's events and
  sets the three flags `commit`, `issueComment`, `prComment`;
* the missing-activity sentence (lines 67-85);
* the assigned-issues collection (lines 97-120);
* the review-requested collection (lines 129-147);
* message assembly and posting (lines 149-160).

Modelling conventions.

* Instants are integers counting nanoseconds, `t.Before(u)` is `t < u` and
  `t.Add(d)` is `t + d`.  `time.Now()` is read once and passed as `now`.
* A paginated listing is the list of its pages, in the order the requests
  return them; the response of the last page is the one whose `NextPage` is
  `0`.  The loops recurse on the pages still to be fetched, so the empty list is
  reached after the last page (a listing without results is the list holding
  one empty page).
* A run-time panic (index out of range) is the result `none`.
* The Go map is an association list with one pair per key; the iteration order
  of `range` over the map is a parameter of message assembly.
* `humanize.Time` belongs to a library and is a parameter.
-/

namespace ActivityNotifier

/-! ## Time -/

/-- The constant `time.Hour`, in nanoseconds. -/
def Hour : Int := 3600000000000

/-- The method `Time.Before`. -/
def Before (t u : Int) : Bool := decide (t < u)

/-- The method `Time.Add`. -/
def Add (t d : Int) : Int := t + d

/-! ## Activity scan -/

/-- The part of `github.Event` the scan reads. -/
structure Event where
  CreatedAt : Int
  EventType : String
  deriving DecidableEq, Repr

/-- The three variables `commit, issueComment, prComment`. -/
structure Flags where
  commit : Bool
  issueComment : Bool
  prComment : Bool
  deriving DecidableEq, Repr

/-- The declaration `var commit, issueComment, prComment bool`. -/
def Flags.init : Flags := ⟨false, false, false⟩

/-- The condition `issueComment && prComment && commit`. -/
def Flags.all (f : Flags) : Bool := f.issueComment && f.prComment && f.commit

/-- The `switch event.GetType()` statement. -/
def switchType (f : Flags) (ty : String) : Flags :=
  if ty = "IssueCommentEvent" then { f with issueComment := true }
  else if ty = "PullRequestReviewEvent" then { f with prComment := true }
  else if ty = "PullRequestReviewCommentEvent" then { f with prComment := true }
  else if ty = "PushEvent" then { f with commit := true }
  else f

/-- The test `event.GetCreatedAt().Before(time.Now().Add(time.Hour * -24))`. -/
def staleEvent (now : Int) (e : Event) : Bool :=
  Before e.CreatedAt (Add now (Hour * -24))

/-- The inner loop `for _, event := range events`: its `break` leaves this
loop only. -/
def scanPage (now : Int) : Flags → List Event → Flags
  | f, [] => f
  | f, e :: es =>
    if staleEvent now e then f
    else scanPage now (switchType f e.EventType) es

/-- The outer loop of the activity scan: scan the page, stop when the three
flags are set, stop when there is no next page, otherwise go on with the next
page. -/
def scanEvents (now : Int) : Flags → List (List Event) → Flags
  | f, [] => f
  | f, events :: rest =>
    let f1 := scanPage now f events
    if f1.all then f1
    else scanEvents now f1 rest

/-- The number of calls of `ListEventsPerformedByUser` the outer loop makes:
one per page until the three flags are set or no page is left. -/
def pagesFetched (now : Int) : Flags → List (List Event) → Nat
  | _, [] => 0
  | f, events :: rest =>
    let f1 := scanPage now f events
    if f1.all then 1
    else 1 + pagesFetched now f1 rest

/-! ## Missing-activity sentence -/

/-- The three `if !flag { missing = append(missing, ...) }` statements. -/
def missingList (f : Flags) : List String :=
  let missing : List String := []
  let missing := if !f.commit then missing ++ ["commits pushed"] else missing
  let missing := if !f.prComment then missing ++ ["PRs reviewed"] else missing
  let missing := if !f.issueComment then missing ++ ["issues commented on"] else missing
  missing

/-- Reading `s[i]` of a slice: out of range is a panic. -/
def index (s : List String) (i : Int) : Option String :=
  if 0 ≤ i ∧ i < s.length then s[i.toNat]? else none

/-- Writing `s[i] = v` of a slice: out of range is a panic. -/
def setIndex (s : List String) (i : Int) (v : String) : Option (List String) :=
  if 0 ≤ i ∧ i < s.length then some (s.set i.toNat v) else none

/-- The function `strings.Join`. -/
def Join (elems : List String) (sep : String) : String := sep.intercalate elems

/-- The `if len(missing) == 1 ... else if len(missing) == 2 ... else ...`
statement that builds `slackMessage`. -/
def missingSentence (missing : List String) : Option String :=
  let len : Int := missing.length
  if len = 1 then do
    let m0 ← index missing 0
    pure ("No " ++ m0 ++ " in the last day!")
  else if len = 2 then do
    let m0 ← index missing 0
    let m1 ← index missing 1
    pure ("No " ++ m0 ++ " or " ++ m1 ++ " in the last day!")
  else do
    let last ← index missing (len - 1)
    let missing ← setIndex missing (len - 1) ("or " ++ last)
    pure ("No " ++ Join missing ", " ++ " in the last day!")

/-- Lines 35-85: the activity scan followed by the sentence builder. -/
def activitySentence (now : Int) (pages : List (List Event)) : Option String :=
  missingSentence (missingList (scanEvents now Flags.init pages))

/-! ## Awaiting issues -/

/-- The part of `github.Issue` the two collections read. -/
structure Issue where
  HTMLURL : String
  UpdatedAt : Int
  CreatedAt : Int
  deriving DecidableEq, Repr

/-- The value type of the map `awaitingIssues`. -/
structure Awaiting where
  Actions : List String
  LastUpdated : Int
  Created : Int
  deriving DecidableEq, Repr

/-- The zero value of the map's value type. -/
def Awaiting.zero : Awaiting := ⟨[], 0, 0⟩

/-- The map `awaitingIssues`, one pair per key. -/
abbrev AwaitingMap := List (String × Awaiting)

/-- The read `awaitingIssues[key]`: the zero value when the key is absent. -/
def mapGet (m : AwaitingMap) (key : String) : Awaiting :=
  (m.lookup key).getD Awaiting.zero

/-- The write `awaitingIssues[key] = v`: replaces the value of a key that is
present, adds the key otherwise. -/
def mapSet : AwaitingMap → String → Awaiting → AwaitingMap
  | [], key, v => [(key, v)]
  | (k, w) :: m, key, v =>
    if k = key then (k, v) :: m else (k, w) :: mapSet m key v

/-- The test `issue.GetUpdatedAt().Before(time.Now().Add(time.Hour * 24 * 7 * -1))`. -/
def staleIssue (now : Int) (issue : Issue) : Bool :=
  Before issue.UpdatedAt (Add now (Hour * 24 * 7 * -1))

/-- The test `issue.GetCreatedAt().Before(time.Now().Add(time.Hour * 24 * 3 * -1))`. -/
def staleReview (now : Int) (issue : Issue) : Bool :=
  Before issue.CreatedAt (Add now (Hour * 24 * 3 * -1))

/-- The body of the loop over one page of assigned issues. -/
def assignedPage (now : Int) : AwaitingMap → List Issue → AwaitingMap
  | m, [] => m
  | m, issue :: issues =>
    if staleIssue now issue then
      let awaiting := mapGet m issue.HTMLURL
      let awaiting := { awaiting with Actions := awaiting.Actions ++ ["assigned to you"] }
      let awaiting := { awaiting with LastUpdated := issue.UpdatedAt }
      let awaiting := { awaiting with Created := issue.CreatedAt }
      assignedPage now (mapSet m issue.HTMLURL awaiting) issues
    else assignedPage now m issues

/-- The assigned-issues collection: every page is scanned. -/
def collectAssigned (now : Int) : AwaitingMap → List (List Issue) → AwaitingMap
  | m, [] => m
  | m, issues :: rest => collectAssigned now (assignedPage now m issues) rest

/-- The body of the loop over one page of review-requested search results. -/
def reviewPage (now : Int) : AwaitingMap → List Issue → AwaitingMap
  | m, [] => m
  | m, issue :: issues =>
    if staleReview now issue then
      let awaiting := mapGet m issue.HTMLURL
      let awaiting := { awaiting with Actions := awaiting.Actions ++ ["awaiting your review"] }
      let awaiting := { awaiting with LastUpdated := issue.UpdatedAt }
      let awaiting := { awaiting with Created := issue.CreatedAt }
      reviewPage now (mapSet m issue.HTMLURL awaiting) issues
    else reviewPage now m issues

/-- The review-requested collection: every page is scanned. -/
def collectReviews (now : Int) : AwaitingMap → List (List Issue) → AwaitingMap
  | m, [] => m
  | m, issues :: rest => collectReviews now (reviewPage now m issues) rest

/-- Lines 97-147: both collections, starting from the empty map. -/
def collectAwaiting (now : Int) (assigned reviews : List (List Issue)) : AwaitingMap :=
  collectReviews now (collectAssigned now [] assigned) reviews

/-! ## Message assembly -/

/-- The literal appended before the bullets. -/
def preamble : String := " Also, the following issues and PRs need your attention:\n"

/-- One bullet line, the right-hand side of `slackMessage +=` in the loop over
the map. -/
def bullet (humanize : Int → String) (issLink : String) (issDetails : Awaiting) : String :=
  "• " ++ issLink ++ " has been open since " ++ humanize issDetails.Created ++
    " and hasn't been updated since " ++ humanize issDetails.LastUpdated ++
    " and is " ++ Join issDetails.Actions " and " ++ "\n"

/-- The loop `for issLink, issDetails := range awaitingIssues`, over the
entries in the order the iteration visits them. -/
def appendBullets (humanize : Int → String) : String → List (String × Awaiting) → String
  | slackMessage, [] => slackMessage
  | slackMessage, (issLink, issDetails) :: rest =>
    appendBullets humanize (slackMessage ++ bullet humanize issLink issDetails) rest

/-- Lines 149-154: the message after the preamble and the bullets were
appended; `order` lists the entries of the map in iteration order. -/
def assembleMessage (humanize : Int → String) (slackMessage : String)
    (order : List (String × Awaiting)) : String :=
  let slackMessage :=
    if slackMessage ≠ "" ∧ order.length > 0 then slackMessage ++ preamble else slackMessage
  appendBullets humanize slackMessage order

/-- Lines 155-160: the text posted to Slack, `none` when nothing is posted. -/
def postMessage (slackMessage : String) : Option String :=
  if slackMessage ≠ "" then some slackMessage else none

/-- The final messages the program can build from a sentence and a map: one
for each order in which the iteration may visit the entries. -/
def FinalMessage (humanize : Int → String) (slackMessage : String) (m : AwaitingMap)
    (msg : String) : Prop :=
  ∃ order : List (String × Awaiting), order.Perm m ∧ msg = assembleMessage humanize slackMessage order

/-- Lines 35-85 and 149-160 of `main` in sequence: `none` when the sentence
builder panicked, so that message assembly is never reached; otherwise what is
posted to Slack, `some none` when the run ends without posting.  `order` lists
the entries of the map in iteration order. -/
def runMain (humanize : Int → String) (now : Int) (events : List (List Event))
    (order : List (String × Awaiting)) : Option (Option String) :=
  match activitySentence now events with
  | none => none
  | some slackMessage => some (postMessage (assembleMessage humanize slackMessage order))

/-! ## Auxiliary notions for the proofs -/

/-- The three kinds of activity, one per flag. -/
inductive Kind where
  | commit
  | issueComment
  | prComment
  deriving DecidableEq, Repr

/-- The flag of a kind. -/
def Flags.get (f : Flags) : Kind → Bool
  | .commit => f.commit
  | .issueComment => f.issueComment
  | .prComment => f.prComment

/-- The flag an event type sets, if any. -/
def kindOf (ty : String) : Option Kind :=
  if ty = "IssueCommentEvent" then some .issueComment
  else if ty = "PullRequestReviewEvent" then some .prComment
  else if ty = "PullRequestReviewCommentEvent" then some .prComment
  else if ty = "PushEvent" then some .commit
  else none

/-- An event that passes the staleness test of the scan. -/
def freshEvent (now : Int) (e : Event) : Bool := !staleEvent now e

/-- One upsert of the two collections: read the entry of the issue's URL,
append the label, overwrite the two instants, write the entry back. -/
def upsert (label : String) (m : AwaitingMap) (issue : Issue) : AwaitingMap :=
  mapSet m issue.HTMLURL
    ⟨(mapGet m issue.HTMLURL).Actions ++ [label], issue.UpdatedAt, issue.CreatedAt⟩

/-- The keys of the map. -/
def keys (m : AwaitingMap) : List String := m.map Prod.fst

/-! ## The activity scan: lemmas -/

theorem staleEvent_iff (now : Int) (e : Event) :
    staleEvent now e = true ↔ e.CreatedAt < now - 24 * Hour := by
  unfold staleEvent Before Add Hour
  simp only [decide_eq_true_eq]
  constructor <;> intro h <;> linarith

theorem freshEvent_iff (now : Int) (e : Event) :
    freshEvent now e = true ↔ ¬ e.CreatedAt < now - 24 * Hour := by
  unfold freshEvent
  rw [← staleEvent_iff]
  cases staleEvent now e <;> simp

theorem switchType_get (f : Flags) (ty : String) (k : Kind) :
    (switchType f ty).get k = (f.get k || decide (kindOf ty = some k)) := by
  unfold switchType kindOf
  split_ifs <;> cases k <;> simp [Flags.get]

theorem switchType_other (f : Flags) (ty : String) (h : kindOf ty = none) :
    switchType f ty = f := by
  unfold kindOf at h
  unfold switchType
  split_ifs at h ⊢
  rfl

theorem scanPage_get (now : Int) (k : Kind) (events : List Event) (f : Flags) :
    (scanPage now f events).get k = true ↔
      f.get k = true ∨ ∃ e ∈ events.takeWhile (freshEvent now), kindOf e.EventType = some k := by
  induction events generalizing f with
  | nil => simp [scanPage]
  | cons e es ih =>
    unfold scanPage
    by_cases hs : staleEvent now e = true
    · simp [hs, freshEvent, List.takeWhile_cons]
    · have hf : freshEvent now e = true := by simp [freshEvent, hs]
      rw [if_neg hs, ih, switchType_get, List.takeWhile_cons, hf]
      simp only [Bool.or_eq_true, decide_eq_true_eq, if_true, List.mem_cons, exists_eq_or_imp]
      tauto

theorem scanPage_mono (now : Int) (k : Kind) (events : List Event) (f : Flags)
    (h : f.get k = true) : (scanPage now f events).get k = true :=
  (scanPage_get now k events f).2 (Or.inl h)

theorem Flags.all_get (f : Flags) (h : f.all = true) (k : Kind) : f.get k = true := by
  unfold Flags.all at h
  simp only [Bool.and_eq_true] at h
  cases k <;> simp [Flags.get, h]

theorem scanEvents_mono (now : Int) (k : Kind) (pages : List (List Event)) (f : Flags)
    (h : f.get k = true) : (scanEvents now f pages).get k = true := by
  induction pages generalizing f with
  | nil => simpa [scanEvents] using h
  | cons events rest ih =>
    unfold scanEvents
    have h1 := scanPage_mono now k events f h
    by_cases ha : (scanPage now f events).all = true
    · simp [ha, h1]
    · simp only [ha]
      exact ih _ h1

/-- A flag that the scan sets was set at the start or by a fresh event of the
listing. -/
theorem scanEvents_get_imp (now : Int) (k : Kind) (pages : List (List Event)) (f : Flags)
    (h : (scanEvents now f pages).get k = true) :
    f.get k = true ∨ ∃ e ∈ pages.flatten, freshEvent now e = true ∧ kindOf e.EventType = some k := by
  induction pages generalizing f with
  | nil => exact Or.inl (by simpa [scanEvents] using h)
  | cons events rest ih =>
    unfold scanEvents at h
    have hpage : (scanPage now f events).get k = true →
        f.get k = true ∨
          ∃ e ∈ (events :: rest).flatten, freshEvent now e = true ∧ kindOf e.EventType = some k := by
      intro h1
      rcases (scanPage_get now k events f).1 h1 with h2 | ⟨e, he, hk⟩
      · exact Or.inl h2
      · refine Or.inr ⟨e, ?_, ?_, hk⟩
        · simp only [List.flatten_cons, List.mem_append]
          exact Or.inl ((List.takeWhile_sublist _).subset he)
        · have := List.mem_takeWhile_imp he
          simpa using this
    by_cases ha : (scanPage now f events).all = true
    · simp only [ha, if_true] at h
      exact hpage h
    · simp only [ha] at h
      rcases ih _ h with h2 | ⟨e, he, hf, hk⟩
      · exact hpage h2
      · refine Or.inr ⟨e, ?_, hf, hk⟩
        simp only [List.flatten_cons, List.mem_append]
        exact Or.inr he

/-- An event of the listing that no stale event precedes sets its flag. -/
theorem scanEvents_get_of_mem (now : Int) (k : Kind) (pages : List (List Event)) (f : Flags)
    (e : Event) (he : e ∈ pages.flatten.takeWhile (freshEvent now))
    (hk : kindOf e.EventType = some k) : (scanEvents now f pages).get k = true := by
  induction pages generalizing f with
  | nil => simp at he
  | cons events rest ih =>
    unfold scanEvents
    by_cases ha : (scanPage now f events).all = true
    · simp only [ha, if_true]
      exact Flags.all_get _ ha k
    · simp only [ha]
      rw [List.flatten_cons, List.takeWhile_append] at he
      split at he
      · rename_i hlen
        rcases List.mem_append.1 he with h1 | h1
        · rw [← (List.takeWhile_sublist (freshEvent now)).eq_of_length hlen] at h1
          exact scanEvents_mono now k rest _
            ((scanPage_get now k events f).2 (Or.inr ⟨e, h1, hk⟩))
        · exact ih _ h1
      · exact scanEvents_mono now k rest _ ((scanPage_get now k events f).2 (Or.inr ⟨e, he, hk⟩))

/-- In a listing in descending chronological order no stale event precedes a
fresh one. -/
theorem mem_takeWhile_fresh_of_sorted (now : Int) (l : List Event)
    (hs : l.Pairwise (fun a b => b.CreatedAt ≤ a.CreatedAt)) (e : Event) (he : e ∈ l)
    (hf : freshEvent now e = true) : e ∈ l.takeWhile (freshEvent now) := by
  induction l with
  | nil => simp at he
  | cons a l ih =>
    rw [List.pairwise_cons] at hs
    have ha : freshEvent now a = true := by
      rcases List.mem_cons.1 he with h | h
      · rw [← h]; exact hf
      · rw [freshEvent_iff] at hf ⊢
        have := hs.1 e h
        omega
    rw [List.takeWhile_cons, ha]
    rcases List.mem_cons.1 he with h | h
    · simp [h]
    · simp only [if_true, List.mem_cons]
      exact Or.inr (ih hs.2 h)

theorem kindOf_eq_commit (ty : String) : kindOf ty = some .commit ↔ ty = "PushEvent" := by
  unfold kindOf
  split_ifs with h1 h2 h3 h4 <;> simp_all

theorem kindOf_eq_issueComment (ty : String) :
    kindOf ty = some .issueComment ↔ ty = "IssueCommentEvent" := by
  unfold kindOf
  split_ifs with h1 h2 h3 h4 <;> simp_all

theorem kindOf_eq_prComment (ty : String) :
    kindOf ty = some .prComment ↔
      (ty = "PullRequestReviewEvent" ∨ ty = "PullRequestReviewCommentEvent") := by
  unfold kindOf
  split_ifs with h1 h2 h3 h4 <;> simp_all

theorem kindOf_eq_none (ty : String) (h1 : ty ≠ "IssueCommentEvent")
    (h2 : ty ≠ "PullRequestReviewEvent") (h3 : ty ≠ "PullRequestReviewCommentEvent")
    (h4 : ty ≠ "PushEvent") : kindOf ty = none := by
  unfold kindOf
  simp [h1, h2, h3, h4]

theorem Flags.init_get (k : Kind) : Flags.init.get k = false := by
  cases k <;> rfl

/-- The flags after a scan of a listing in descending chronological order. -/
theorem scanEvents_get_sorted (now : Int) (k : Kind) (pages : List (List Event))
    (hs : pages.flatten.Pairwise (fun a b => b.CreatedAt ≤ a.CreatedAt)) :
    (scanEvents now Flags.init pages).get k = true ↔
      ∃ e ∈ pages.flatten, freshEvent now e = true ∧ kindOf e.EventType = some k := by
  constructor
  · intro h
    rcases scanEvents_get_imp now k pages _ h with h0 | h1
    · rw [Flags.init_get] at h0
      exact absurd h0 (by decide)
    · exact h1
  · rintro ⟨e, he, hf, hk⟩
    exact scanEvents_get_of_mem now k pages _ e
      (mem_takeWhile_fresh_of_sorted now _ hs e he hf) hk

theorem scanPage_stale_cut (now : Int) (e : Event) (post : List Event)
    (hs : staleEvent now e = true) (pre : List Event) (f : Flags) :
    scanPage now f (pre ++ e :: post) = scanPage now f pre := by
  induction pre generalizing f with
  | nil => simp [scanPage, hs]
  | cons a pre ih =>
    simp only [List.cons_append, scanPage]
    split
    · rfl
    · exact ih _

theorem scanEvents_page_congr (now : Int) (p q : List Event) (after : List (List Event))
    (h : ∀ f, scanPage now f p = scanPage now f q) (before : List (List Event)) (f : Flags) :
    scanEvents now f (before ++ p :: after) = scanEvents now f (before ++ q :: after) := by
  induction before generalizing f with
  | nil => simp [scanEvents, h]
  | cons b before ih =>
    simp only [List.cons_append, scanEvents]
    split
    · rfl
    · exact ih _

theorem pagesFetched_page_congr (now : Int) (p q : List Event) (after : List (List Event))
    (h : ∀ f, scanPage now f p = scanPage now f q) (before : List (List Event)) (f : Flags) :
    pagesFetched now f (before ++ p :: after) = pagesFetched now f (before ++ q :: after) := by
  induction before generalizing f with
  | nil => simp [pagesFetched, h]
  | cons b before ih =>
    simp only [List.cons_append, pagesFetched]
    split
    · rfl
    · exact congrArg (1 + ·) (ih _)

theorem scanPage_all_stale (now : Int) (events : List Event) (f : Flags)
    (h : ∀ e ∈ events, staleEvent now e = true) : scanPage now f events = f := by
  cases events with
  | nil => rfl
  | cons a es => simp [scanPage, h a (List.mem_cons_self _ _)]

theorem scanEvents_all_stale (now : Int) (pages : List (List Event)) (f : Flags)
    (h : ∀ events ∈ pages, ∀ e ∈ events, staleEvent now e = true) :
    scanEvents now f pages = f := by
  induction pages with
  | nil => rfl
  | cons events rest ih =>
    have h1 := scanPage_all_stale now events f (h events (List.mem_cons_self _ _))
    simp only [scanEvents, h1]
    split
    · rfl
    · exact ih (fun p hp => h p (List.mem_cons_of_mem _ hp))

theorem scanEvents_drop_stale_tail (now : Int) (pre : List Event) (after : List (List Event))
    (h : ∀ events ∈ after, ∀ e ∈ events, staleEvent now e = true)
    (before : List (List Event)) (f : Flags) :
    scanEvents now f (before ++ pre :: after) = scanEvents now f (before ++ [pre]) := by
  induction before generalizing f with
  | nil =>
    simp only [List.nil_append, scanEvents]
    split
    · rfl
    · exact scanEvents_all_stale now after _ h
  | cons b before ih =>
    simp only [List.cons_append, scanEvents]
    split
    · rfl
    · exact ih _

theorem freshEvent_eq_fun (now : Int) :
    (fun e : Event => decide (¬ e.CreatedAt < now - 24 * Hour)) = freshEvent now := by
  funext e
  by_cases h : e.CreatedAt < now - 24 * Hour
  · have : freshEvent now e = false := by
      cases hf : freshEvent now e
      · rfl
      · exact absurd h ((freshEvent_iff now e).1 hf)
    simp [h, this]
  · simp [h, (freshEvent_iff now e).2 h]

/-! ## Claims on the activity scan and the sentence -/

/-- C1 (the code departs from the claim): when a PushEvent, an
IssueCommentEvent and a pull-request review event occur in the listing, none
older than 24 hours and none after a stale event, the scan sets the three
flags, the list `missing` stays empty, and the sentence builder then indexes
`missing[len(missing)-1]` out of range: it panics instead of leaving the
sentence empty. -/
theorem all_flags_set_sentence_panics (now : Int) (pages : List (List Event))
    (e1 e2 e3 : Event)
    (h1 : e1 ∈ pages.flatten.takeWhile (fun e => decide (¬ e.CreatedAt < now - 24 * Hour)))
    (h2 : e2 ∈ pages.flatten.takeWhile (fun e => decide (¬ e.CreatedAt < now - 24 * Hour)))
    (h3 : e3 ∈ pages.flatten.takeWhile (fun e => decide (¬ e.CreatedAt < now - 24 * Hour)))
    (t1 : e1.EventType = "PushEvent") (t2 : e2.EventType = "IssueCommentEvent")
    (t3 : e3.EventType = "PullRequestReviewEvent" ∨
      e3.EventType = "PullRequestReviewCommentEvent") :
    scanEvents now Flags.init pages = ⟨true, true, true⟩ ∧
      missingList (scanEvents now Flags.init pages) = [] ∧
      activitySentence now pages = none := by
  rw [freshEvent_eq_fun] at h1 h2 h3
  have c := scanEvents_get_of_mem now .commit pages Flags.init e1 h1
    ((kindOf_eq_commit _).2 t1)
  have i := scanEvents_get_of_mem now .issueComment pages Flags.init e2 h2
    ((kindOf_eq_issueComment _).2 t2)
  have r := scanEvents_get_of_mem now .prComment pages Flags.init e3 h3
    ((kindOf_eq_prComment _).2 t3)
  have hall : scanEvents now Flags.init pages = ⟨true, true, true⟩ := by
    cases hf : scanEvents now Flags.init pages with
    | mk a b d =>
      rw [hf] at c i r
      simp only [Flags.get] at c i r
      rw [c, i, r]
  unfold activitySentence
  rw [hall]
  exact ⟨rfl, by decide, by decide⟩

theorem all_flags_set_sentence_panics_witness :
    (⟨0, "PushEvent"⟩ ∈
        ([[⟨0, "PushEvent"⟩, ⟨0, "IssueCommentEvent"⟩,
            ⟨0, "PullRequestReviewEvent"⟩]] : List (List Event)).flatten.takeWhile
          (fun e => decide (¬ e.CreatedAt < 0 - 24 * Hour))) ∧
      scanEvents 0 Flags.init
          [[⟨0, "PushEvent"⟩, ⟨0, "IssueCommentEvent"⟩, ⟨0, "PullRequestReviewEvent"⟩]] =
        ⟨true, true, true⟩ ∧
      activitySentence 0
          [[⟨0, "PushEvent"⟩, ⟨0, "IssueCommentEvent"⟩, ⟨0, "PullRequestReviewEvent"⟩]] =
        none :=
  ⟨by decide,
    (all_flags_set_sentence_panics 0
      [[⟨0, "PushEvent"⟩, ⟨0, "IssueCommentEvent"⟩, ⟨0, "PullRequestReviewEvent"⟩]]
      ⟨0, "PushEvent"⟩ ⟨0, "IssueCommentEvent"⟩ ⟨0, "PullRequestReviewEvent"⟩
      (by decide) (by decide) (by decide) rfl rfl (Or.inl rfl)).1,
    (all_flags_set_sentence_panics 0
      [[⟨0, "PushEvent"⟩, ⟨0, "IssueCommentEvent"⟩, ⟨0, "PullRequestReviewEvent"⟩]]
      ⟨0, "PushEvent"⟩ ⟨0, "IssueCommentEvent"⟩ ⟨0, "PullRequestReviewEvent"⟩
      (by decide) (by decide) (by decide) rfl rfl (Or.inl rfl)).2.2⟩

/-- C2: for a listing in descending chronological order, after the scan
`commit` holds iff the listing has a PushEvent not older than 24 hours,
`issueComment` iff it has such an IssueCommentEvent, `prComment` iff it has
such a PullRequestReviewEvent or PullRequestReviewCommentEvent; an event of
another type leaves the flags as they are. -/
theorem scan_flags_iff_fresh_event (now : Int) (pages : List (List Event))
    (hs : pages.flatten.Pairwise (fun a b => b.CreatedAt ≤ a.CreatedAt)) :
    ((scanEvents now Flags.init pages).commit = true ↔
        ∃ e ∈ pages.flatten, e.EventType = "PushEvent" ∧ ¬ e.CreatedAt < now - 24 * Hour) ∧
      ((scanEvents now Flags.init pages).issueComment = true ↔
        ∃ e ∈ pages.flatten,
          e.EventType = "IssueCommentEvent" ∧ ¬ e.CreatedAt < now - 24 * Hour) ∧
      ((scanEvents now Flags.init pages).prComment = true ↔
        ∃ e ∈ pages.flatten,
          (e.EventType = "PullRequestReviewEvent" ∨
            e.EventType = "PullRequestReviewCommentEvent") ∧
          ¬ e.CreatedAt < now - 24 * Hour) ∧
      ∀ (f : Flags) (ty : String), ty ≠ "IssueCommentEvent" → ty ≠ "PullRequestReviewEvent" →
        ty ≠ "PullRequestReviewCommentEvent" → ty ≠ "PushEvent" → switchType f ty = f := by
  refine ⟨?_, ?_, ?_, ?_⟩
  · have h := scanEvents_get_sorted now .commit pages hs
    simp only [Flags.get, freshEvent_iff, kindOf_eq_commit] at h
    rw [h]
    exact exists_congr fun e => and_congr_right fun _ => and_comm
  · have h := scanEvents_get_sorted now .issueComment pages hs
    simp only [Flags.get, freshEvent_iff, kindOf_eq_issueComment] at h
    rw [h]
    exact exists_congr fun e => and_congr_right fun _ => and_comm
  · have h := scanEvents_get_sorted now .prComment pages hs
    simp only [Flags.get, freshEvent_iff, kindOf_eq_prComment] at h
    rw [h]
    exact exists_congr fun e => and_congr_right fun _ => and_comm
  · intro f ty h1 h2 h3 h4
    exact switchType_other f ty (kindOf_eq_none ty h1 h2 h3 h4)

theorem scan_flags_iff_fresh_event_witness :
    ([[⟨0, "PushEvent"⟩], [⟨-25 * Hour, "IssueCommentEvent"⟩]] :
        List (List Event)).flatten.Pairwise (fun a b => b.CreatedAt ≤ a.CreatedAt) ∧
      (scanEvents 0 Flags.init
          [[⟨0, "PushEvent"⟩], [⟨-25 * Hour, "IssueCommentEvent"⟩]]).commit = true ∧
      ¬ (scanEvents 0 Flags.init
          [[⟨0, "PushEvent"⟩], [⟨-25 * Hour, "IssueCommentEvent"⟩]]).issueComment = true :=
  ⟨by decide,
    (scan_flags_iff_fresh_event 0 [[⟨0, "PushEvent"⟩], [⟨-25 * Hour, "IssueCommentEvent"⟩]]
      (by decide)).1.2 ⟨⟨0, "PushEvent"⟩, by decide, rfl, by decide⟩,
    fun h => by
      have h1 := (scan_flags_iff_fresh_event 0
        [[⟨0, "PushEvent"⟩], [⟨-25 * Hour, "IssueCommentEvent"⟩]] (by decide)).2.1.1 h
      revert h1
      decide⟩

/-- C3: the list `missing` holds the absent activities in the order "commits
pushed", "PRs reviewed", "issues commented on", and the sentence is "No X in
the last day!" for one absent activity, "No X or Y in the last day!" for two
and "No X, Y, or Z in the last day!" for three. -/
theorem sentence_lists_absent_activities (f : Flags) :
    missingList f =
        (if f.commit then [] else ["commits pushed"]) ++
          (if f.prComment then [] else ["PRs reviewed"]) ++
          (if f.issueComment then [] else ["issues commented on"]) ∧
      (∀ x, missingList f = [x] →
        missingSentence (missingList f) = some ("No " ++ x ++ " in the last day!")) ∧
      (∀ x y, missingList f = [x, y] →
        missingSentence (missingList f) =
          some ("No " ++ x ++ " or " ++ y ++ " in the last day!")) ∧
      (∀ x y z, missingList f = [x, y, z] →
        missingSentence (missingList f) =
          some ("No " ++ x ++ ", " ++ y ++ ", or " ++ z ++ " in the last day!")) := by
  rcases f with ⟨c, i, p⟩
  refine ⟨?_, ?_, ?_, ?_⟩
  · cases c <;> cases i <;> cases p <;> rfl
  · intro x hx
    rw [hx]
    simp [missingSentence, index]
  · intro x y hx
    rw [hx]
    simp [missingSentence, index]
  · intro x y z hx
    rw [hx]
    have hxyz : x = "commits pushed" ∧ y = "PRs reviewed" ∧ z = "issues commented on" := by
      cases c <;> cases i <;> cases p <;> simp [missingList] at hx
      exact ⟨hx.1.symm, hx.2.1.symm, hx.2.2.symm⟩
    rw [hxyz.1, hxyz.2.1, hxyz.2.2]
    decide

theorem sentence_lists_absent_activities_witness :
    missingList ⟨true, false, false⟩ = ["PRs reviewed", "issues commented on"] ∧
      missingSentence (missingList ⟨true, false, false⟩) =
        some ("No " ++ "PRs reviewed" ++ " or " ++ "issues commented on" ++
          " in the last day!") :=
  ⟨by decide,
    (sentence_lists_absent_activities ⟨true, false, false⟩).2.2.1
      "PRs reviewed" "issues commented on" (by decide)⟩

/-- C4 as stated fails: with the three flags false the sentence is not the one
that names "issues commented on" before "PRs reviewed". -/
theorem all_missing_order_not_as_claimed :
    missingSentence (missingList ⟨false, false, false⟩) ≠
      some "No commits pushed, issues commented on, or PRs reviewed in the last day!" := by
  decide

/-- C4 (amended): when the three flags are false, and so whenever the listing
has no event of the four relevant types, the sentence is exactly "No commits
pushed, PRs reviewed, or issues commented on in the last day!". -/
theorem sentence_all_missing :
    missingSentence (missingList ⟨false, false, false⟩) =
        some "No commits pushed, PRs reviewed, or issues commented on in the last day!" ∧
      ∀ (now : Int) (pages : List (List Event)),
        (∀ e ∈ pages.flatten, e.EventType ≠ "IssueCommentEvent" ∧
          e.EventType ≠ "PullRequestReviewEvent" ∧
          e.EventType ≠ "PullRequestReviewCommentEvent" ∧ e.EventType ≠ "PushEvent") →
        activitySentence now pages =
          some "No commits pushed, PRs reviewed, or issues commented on in the last day!" := by
  refine ⟨by decide, ?_⟩
  intro now pages h
  have hk : ∀ k, (scanEvents now Flags.init pages).get k = false := by
    intro k
    cases hg : (scanEvents now Flags.init pages).get k
    · rfl
    · rcases scanEvents_get_imp now k pages _ hg with h0 | ⟨e, he, _, hke⟩
      · rw [Flags.init_get] at h0
        exact absurd h0 (by decide)
      · have := h e he
        rw [kindOf_eq_none _ this.1 this.2.1 this.2.2.1 this.2.2.2] at hke
        exact absurd hke (by simp)
  have hall : scanEvents now Flags.init pages = ⟨false, false, false⟩ := by
    have c := hk .commit
    have i := hk .issueComment
    have r := hk .prComment
    cases hf : scanEvents now Flags.init pages with
    | mk a b d =>
      rw [hf] at c i r
      simp only [Flags.get] at c i r
      rw [c, i, r]
  unfold activitySentence
  rw [hall]
  decide

theorem sentence_all_missing_witness :
    (∀ e ∈ ([[⟨0, "WatchEvent"⟩]] : List (List Event)).flatten,
        e.EventType ≠ "IssueCommentEvent" ∧ e.EventType ≠ "PullRequestReviewEvent" ∧
          e.EventType ≠ "PullRequestReviewCommentEvent" ∧ e.EventType ≠ "PushEvent") ∧
      activitySentence 0 [[⟨0, "WatchEvent"⟩]] =
        some "No commits pushed, PRs reviewed, or issues commented on in the last day!" :=
  ⟨by decide, sentence_all_missing.2 0 [[⟨0, "WatchEvent"⟩]] (by decide)⟩

/-- C10 as stated fails.  In a descending listing whose first page ends with
a stale event the scan still fetches the second page; and in a listing whose
second page holds a fresh PushEvent after a stale event of the first page, that
later event sets `commit`. -/
theorem stale_event_does_not_end_scan :
    staleEvent 0 ⟨-25 * Hour, "PushEvent"⟩ = true ∧
      pagesFetched 0 Flags.init
          [[⟨0, "PushEvent"⟩, ⟨-25 * Hour, "PushEvent"⟩], [⟨-26 * Hour, "PushEvent"⟩]] = 2 ∧
      (scanEvents 0 Flags.init [[⟨-25 * Hour, "PushEvent"⟩]]).commit = false ∧
      (scanEvents 0 Flags.init [[⟨-25 * Hour, "PushEvent"⟩], [⟨0, "PushEvent"⟩]]).commit =
        true ∧
      pagesFetched 0 Flags.init [[⟨-25 * Hour, "PushEvent"⟩], [⟨0, "PushEvent"⟩]] = 2 := by
  decide

/-- C10 (amended): an event older than 24 hours ends the scan of its page
only.  The stale event and the events after it on the same page change neither
the flags nor the number of pages fetched; the next page is still fetched
unless the three flags are set (or there is no next page); and when the
listing is in descending chronological order, nothing after the stale event,
on the same page or on a later one, changes a flag. -/
theorem stale_event_ends_page_only (now : Int) (f : Flags) (before : List (List Event))
    (pre : List Event) (e : Event) (post : List Event) (after : List (List Event))
    (hs : e.CreatedAt < now - 24 * Hour) :
    scanEvents now f (before ++ (pre ++ e :: post) :: after) =
        scanEvents now f (before ++ pre :: after) ∧
      pagesFetched now f (before ++ (pre ++ e :: post) :: after) =
        pagesFetched now f (before ++ pre :: after) ∧
      (∀ next rest, (scanPage now f pre).all = false →
        2 ≤ pagesFetched now f ((pre ++ e :: post) :: next :: rest) ∧
          scanEvents now f ((pre ++ e :: post) :: next :: rest) =
            scanEvents now (scanPage now f pre) (next :: rest)) ∧
      ((before ++ (pre ++ e :: post) :: after).flatten.Pairwise
          (fun a b => b.CreatedAt ≤ a.CreatedAt) →
        scanEvents now f (before ++ (pre ++ e :: post) :: after) =
          scanEvents now f (before ++ [pre])) := by
  have hst : staleEvent now e = true := (staleEvent_iff now e).2 hs
  have hcut : ∀ g, scanPage now g (pre ++ e :: post) = scanPage now g pre :=
    fun g => scanPage_stale_cut now e post hst pre g
  have h1 := scanEvents_page_congr now _ _ after hcut before f
  refine ⟨h1, pagesFetched_page_congr now _ _ after hcut before f, ?_, ?_⟩
  · intro next rest hall
    constructor
    · have hp : pagesFetched now f ((pre ++ e :: post) :: next :: rest) =
          1 + pagesFetched now (scanPage now f pre) (next :: rest) := by
        simp [pagesFetched, hcut, hall]
      rw [hp]
      simp only [pagesFetched]
      split <;> omega
    · simp only [scanEvents, hcut, hall]
      rfl
  · intro hsorted
    rw [h1]
    apply scanEvents_drop_stale_tail
    intro events hev a ha
    rw [staleEvent_iff]
    have hle : a.CreatedAt ≤ e.CreatedAt := by
      rw [List.flatten_append, List.flatten_cons] at hsorted
      have h2 := (List.pairwise_append.1 (List.pairwise_append.1 hsorted).2.1).2.2
      exact h2 e (by simp) a (List.mem_flatten.2 ⟨events, hev, ha⟩)
    omega

theorem stale_event_ends_page_only_witness :
    ((⟨-25 * Hour, "WatchEvent"⟩ : Event).CreatedAt < 0 - 24 * Hour) ∧
      scanEvents 0 Flags.init
          [[⟨0, "IssueCommentEvent"⟩],
            [⟨0, "WatchEvent"⟩, ⟨-25 * Hour, "WatchEvent"⟩, ⟨0, "PushEvent"⟩],
            [⟨0, "PullRequestReviewEvent"⟩]] =
        scanEvents 0 Flags.init
          [[⟨0, "IssueCommentEvent"⟩], [⟨0, "WatchEvent"⟩], [⟨0, "PullRequestReviewEvent"⟩]] :=
  ⟨by decide,
    (stale_event_ends_page_only 0 Flags.init [[⟨0, "IssueCommentEvent"⟩]]
      [⟨0, "WatchEvent"⟩] ⟨-25 * Hour, "WatchEvent"⟩ [⟨0, "PushEvent"⟩]
      [[⟨0, "PullRequestReviewEvent"⟩]] (by decide)).1⟩

/-! ## The awaiting map: lemmas -/

theorem lookup_cons_eq (k u : String) (w : Awaiting) (m : AwaitingMap) :
    List.lookup u ((k, w) :: m) = if u = k then some w else m.lookup u := by
  by_cases h : u = k
  · subst h
    simp [List.lookup_cons]
  · have hb : (u == k) = false := by simpa using h
    simp [List.lookup_cons, hb, h]

theorem lookup_mapSet (m : AwaitingMap) (key : String) (v : Awaiting) (u : String) :
    (mapSet m key v).lookup u = if u = key then some v else m.lookup u := by
  induction m with
  | nil => simp [mapSet, lookup_cons_eq]
  | cons p m ih =>
    rcases p with ⟨k, w⟩
    unfold mapSet
    by_cases hk : k = key
    · subst hk
      by_cases h : u = k <;> simp [lookup_cons_eq, h]
    · simp only [hk, if_false, lookup_cons_eq, ih]
      by_cases h : u = key
      · subst h
        have : ¬ u = k := fun h => hk h.symm
        simp [this]
      · simp [h]

theorem keys_mapSet (m : AwaitingMap) (key : String) (v : Awaiting) :
    keys (mapSet m key v) = if key ∈ keys m then keys m else keys m ++ [key] := by
  induction m with
  | nil => simp [mapSet, keys]
  | cons p m ih =>
    rcases p with ⟨k, w⟩
    unfold mapSet
    by_cases hk : k = key
    · simp [hk, keys]
    · have hk2 : ¬ key = k := fun h => hk h.symm
      unfold keys at ih ⊢
      simp only [hk, if_false, List.map_cons, ih, List.mem_cons, hk2, false_or]
      split <;> simp

theorem nodup_keys_mapSet (m : AwaitingMap) (key : String) (v : Awaiting)
    (h : (keys m).Nodup) : (keys (mapSet m key v)).Nodup := by
  rw [keys_mapSet]
  split
  · exact h
  · rename_i hk
    rw [List.nodup_append]
    refine ⟨h, List.nodup_singleton _, ?_⟩
    intro a ha hb
    simp only [List.mem_singleton] at hb
    exact hk (hb ▸ ha)

theorem mem_keys_iff_lookup (m : AwaitingMap) (u : String) :
    u ∈ keys m ↔ m.lookup u ≠ none := by
  induction m with
  | nil => simp [keys]
  | cons p m ih =>
    rcases p with ⟨k, w⟩
    unfold keys at ih ⊢
    simp only [List.map_cons, List.mem_cons, List.lookup_cons, ih]
    by_cases h : u = k
    · simp [h]
    · have : (u == k) = false := by simpa using h
      simp [h, this]

theorem lookup_of_mem (m : AwaitingMap) (h : (keys m).Nodup) (u : String) (a : Awaiting)
    (hm : (u, a) ∈ m) : m.lookup u = some a := by
  induction m with
  | nil => simp at hm
  | cons p m ih =>
    rcases p with ⟨k, w⟩
    unfold keys at h ih
    simp only [List.map_cons, List.nodup_cons] at h
    rcases List.mem_cons.1 hm with h1 | h1
    · cases h1
      simp [List.lookup_cons]
    · have hne : ¬ u = k := by
        intro hu
        apply h.1
        rw [← hu]
        exact List.mem_map.2 ⟨(u, a), h1, rfl⟩
      have : (u == k) = false := by simpa using hne
      simp only [List.lookup_cons, this]
      exact ih h.2 h1

theorem filter_key_of_lookup (m : AwaitingMap) (h : (keys m).Nodup) (u : String) (a : Awaiting)
    (hl : m.lookup u = some a) : m.filter (fun p => decide (p.1 = u)) = [(u, a)] := by
  induction m with
  | nil => simp at hl
  | cons p m ih =>
    rcases p with ⟨k, w⟩
    unfold keys at h ih
    simp only [List.map_cons, List.nodup_cons] at h
    by_cases hk : u = k
    · subst hk
      simp only [List.lookup_cons, beq_self_eq_true] at hl
      cases hl
      rw [List.filter_cons]
      simp only [decide_True, if_true, List.cons.injEq, true_and]
      rw [List.filter_eq_nil_iff]
      intro q hq hqu
      simp only [decide_eq_true_eq] at hqu
      apply h.1
      rw [← hqu]
      exact List.mem_map.2 ⟨q, hq, rfl⟩
    · have hb : (u == k) = false := by simpa using hk
      have hk2 : ¬ k = u := fun h => hk h.symm
      simp only [List.lookup_cons, hb] at hl
      rw [List.filter_cons]
      simp only [hk2, decide_False, Bool.false_eq_true, if_false]
      exact ih h.2 hl

theorem assignedPage_eq_foldl (now : Int) (issues : List Issue) (m : AwaitingMap) :
    assignedPage now m issues =
      (issues.filter (staleIssue now)).foldl (upsert "assigned to you") m := by
  induction issues generalizing m with
  | nil => rfl
  | cons issue issues ih =>
    unfold assignedPage
    by_cases h : staleIssue now issue = true
    · simp only [h, if_true, List.filter_cons, List.foldl_cons]
      exact ih _
    · simp only [h, if_false, List.filter_cons]
      exact ih _

theorem collectAssigned_eq_foldl (now : Int) (pages : List (List Issue)) (m : AwaitingMap) :
    collectAssigned now m pages =
      (pages.flatten.filter (staleIssue now)).foldl (upsert "assigned to you") m := by
  induction pages generalizing m with
  | nil => rfl
  | cons issues rest ih =>
    simp only [collectAssigned, ih, assignedPage_eq_foldl, List.flatten_cons, List.filter_append,
      List.foldl_append]

theorem reviewPage_eq_foldl (now : Int) (issues : List Issue) (m : AwaitingMap) :
    reviewPage now m issues =
      (issues.filter (staleReview now)).foldl (upsert "awaiting your review") m := by
  induction issues generalizing m with
  | nil => rfl
  | cons issue issues ih =>
    unfold reviewPage
    by_cases h : staleReview now issue = true
    · simp only [h, if_true, List.filter_cons, List.foldl_cons]
      exact ih _
    · simp only [h, if_false, List.filter_cons]
      exact ih _

theorem collectReviews_eq_foldl (now : Int) (pages : List (List Issue)) (m : AwaitingMap) :
    collectReviews now m pages =
      (pages.flatten.filter (staleReview now)).foldl (upsert "awaiting your review") m := by
  induction pages generalizing m with
  | nil => rfl
  | cons issues rest ih =>
    simp only [collectReviews, ih, reviewPage_eq_foldl, List.flatten_cons, List.filter_append,
      List.foldl_append]

theorem nodup_keys_foldl_upsert (label : String) (xs : List Issue) (m : AwaitingMap)
    (h : (keys m).Nodup) : (keys (xs.foldl (upsert label) m)).Nodup := by
  induction xs generalizing m with
  | nil => exact h
  | cons x xs ih =>
    rw [List.foldl_cons]
    exact ih _ (nodup_keys_mapSet _ _ _ h)

theorem lookup_upsert (label : String) (m : AwaitingMap) (x : Issue) (u : String) :
    (upsert label m x).lookup u =
      if u = x.HTMLURL then
        some ⟨(mapGet m x.HTMLURL).Actions ++ [label], x.UpdatedAt, x.CreatedAt⟩
      else m.lookup u :=
  lookup_mapSet _ _ _ _

/-- The entry of a URL after a run of upserts: untouched when no upserted
issue has the URL; otherwise its actions are the former ones followed by one
label per such issue, and its instants are those of the last such issue. -/
theorem lookup_foldl_upsert (label : String) (u : String) (xs : List Issue) (m : AwaitingMap) :
    (xs.foldl (upsert label) m).lookup u =
      match (xs.filter (fun i => decide (i.HTMLURL = u))).getLast? with
      | none => m.lookup u
      | some x =>
        some ⟨(mapGet m u).Actions ++
          List.replicate (xs.filter (fun i => decide (i.HTMLURL = u))).length label,
          x.UpdatedAt, x.CreatedAt⟩ := by
  induction xs using List.reverseRecOn with
  | nil => simp
  | append_singleton xs x ih =>
    rw [List.foldl_append, List.foldl_cons, List.foldl_nil, List.filter_append, lookup_upsert]
    by_cases hx : x.HTMLURL = u
    · subst hx
      have hf : List.filter (fun i : Issue => decide (i.HTMLURL = x.HTMLURL)) [x] = [x] := by
        simp
      rw [hf, List.getLast?_concat, if_pos rfl, List.length_append, List.length_singleton,
        List.replicate_succ', ← List.append_assoc]
      simp only [Option.some.injEq, Awaiting.mk.injEq, and_true, List.append_cancel_right_eq]
      cases hl : (xs.filter (fun i => decide (i.HTMLURL = x.HTMLURL))).getLast? with
      | none =>
        rw [hl] at ih
        rw [List.getLast?_eq_none_iff] at hl
        unfold mapGet
        rw [ih, hl, List.length_nil, List.replicate_zero, List.append_nil]
        simp [mapGet]
      | some y =>
        rw [hl] at ih
        unfold mapGet
        rw [ih, Option.getD_some]
        rfl
    · have hf : List.filter (fun i : Issue => decide (i.HTMLURL = u)) [x] = [] := by
        simp [hx]
      have hx2 : ¬ u = x.HTMLURL := fun h => hx h.symm
      rw [hf, List.append_nil, if_neg hx2]
      exact ih

theorem staleIssue_iff (now : Int) (i : Issue) :
    staleIssue now i = true ↔ i.UpdatedAt < now - 7 * 24 * Hour := by
  unfold staleIssue Before Add Hour
  simp only [decide_eq_true_eq]
  constructor <;> intro h <;> linarith

theorem staleReview_iff (now : Int) (i : Issue) :
    staleReview now i = true ↔ i.CreatedAt < now - 3 * 24 * Hour := by
  unfold staleReview Before Add Hour
  simp only [decide_eq_true_eq]
  constructor <;> intro h <;> linarith

theorem filter_staleIssue_url (now : Int) (u : String) (l : List Issue) :
    (l.filter (staleIssue now)).filter (fun i => decide (i.HTMLURL = u)) =
      l.filter (fun i => decide (i.UpdatedAt < now - 7 * 24 * Hour ∧ i.HTMLURL = u)) := by
  rw [List.filter_filter]
  apply List.filter_congr
  intro x _
  rw [Bool.eq_iff_iff]
  simp only [Bool.and_eq_true, decide_eq_true_eq, staleIssue_iff]
  tauto

theorem filter_staleReview_url (now : Int) (u : String) (l : List Issue) :
    (l.filter (staleReview now)).filter (fun i => decide (i.HTMLURL = u)) =
      l.filter (fun i => decide (i.CreatedAt < now - 3 * 24 * Hour ∧ i.HTMLURL = u)) := by
  rw [List.filter_filter]
  apply List.filter_congr
  intro x _
  rw [Bool.eq_iff_iff]
  simp only [Bool.and_eq_true, decide_eq_true_eq, staleReview_iff]
  tauto

/-- The entry of a URL after the assigned-issues collection. -/
theorem lookup_collectAssigned (now : Int) (pages : List (List Issue)) (m : AwaitingMap)
    (u : String) :
    (collectAssigned now m pages).lookup u =
      match (pages.flatten.filter
        (fun i => decide (i.UpdatedAt < now - 7 * 24 * Hour ∧ i.HTMLURL = u))).getLast? with
      | none => m.lookup u
      | some x =>
        some ⟨(mapGet m u).Actions ++
          List.replicate (pages.flatten.filter
            (fun i => decide (i.UpdatedAt < now - 7 * 24 * Hour ∧ i.HTMLURL = u))).length
            "assigned to you",
          x.UpdatedAt, x.CreatedAt⟩ := by
  rw [collectAssigned_eq_foldl, lookup_foldl_upsert, filter_staleIssue_url]

/-- The entry of a URL after the review-requested collection. -/
theorem lookup_collectReviews (now : Int) (pages : List (List Issue)) (m : AwaitingMap)
    (u : String) :
    (collectReviews now m pages).lookup u =
      match (pages.flatten.filter
        (fun i => decide (i.CreatedAt < now - 3 * 24 * Hour ∧ i.HTMLURL = u))).getLast? with
      | none => m.lookup u
      | some x =>
        some ⟨(mapGet m u).Actions ++
          List.replicate (pages.flatten.filter
            (fun i => decide (i.CreatedAt < now - 3 * 24 * Hour ∧ i.HTMLURL = u))).length
            "awaiting your review",
          x.UpdatedAt, x.CreatedAt⟩ := by
  rw [collectReviews_eq_foldl, lookup_foldl_upsert, filter_staleReview_url]

theorem nodup_keys_collectAssigned (now : Int) (pages : List (List Issue)) (m : AwaitingMap)
    (h : (keys m).Nodup) : (keys (collectAssigned now m pages)).Nodup := by
  rw [collectAssigned_eq_foldl]
  exact nodup_keys_foldl_upsert _ _ _ h

theorem nodup_keys_collectReviews (now : Int) (pages : List (List Issue)) (m : AwaitingMap)
    (h : (keys m).Nodup) : (keys (collectReviews now m pages)).Nodup := by
  rw [collectReviews_eq_foldl]
  exact nodup_keys_foldl_upsert _ _ _ h

/-! ## Claims on the two collections -/

/-- C5: starting from the empty map, after the assigned-issues collection over
all pages the keys of the map are exactly the URLs of the issues updated
strictly before now - 7 days, each key once; the entry of a URL has one
"assigned to you" per such issue and the instants of the last such issue.  An
issue updated 8 days ago gives one entry with the action "assigned to you", an
issue updated 6 days ago gives none. -/
theorem assigned_collection_keeps_stale_issues (now : Int) (pages : List (List Issue)) :
    (∀ u, u ∈ (collectAssigned now [] pages).map Prod.fst ↔
        ∃ i ∈ pages.flatten, i.UpdatedAt < now - 7 * 24 * Hour ∧ i.HTMLURL = u) ∧
      ((collectAssigned now [] pages).map Prod.fst).Nodup ∧
      (∀ u a, (u, a) ∈ collectAssigned now [] pages →
        a.Actions = List.replicate (pages.flatten.filter
            (fun i => decide (i.UpdatedAt < now - 7 * 24 * Hour ∧ i.HTMLURL = u))).length
            "assigned to you" ∧
          ∃ i, (pages.flatten.filter
              (fun i => decide (i.UpdatedAt < now - 7 * 24 * Hour ∧ i.HTMLURL = u))).getLast? =
                some i ∧
            a.LastUpdated = i.UpdatedAt ∧ a.Created = i.CreatedAt) ∧
      (∀ u cr, collectAssigned now [] [[⟨u, now - 8 * 24 * Hour, cr⟩]] =
        [(u, ⟨["assigned to you"], now - 8 * 24 * Hour, cr⟩)]) ∧
      (∀ u cr, collectAssigned now [] [[⟨u, now - 6 * 24 * Hour, cr⟩]] = []) := by
  have hnd : (keys (collectAssigned now [] pages)).Nodup :=
    nodup_keys_collectAssigned now pages [] (by simp [keys])
  refine ⟨?_, hnd, ?_, ?_, ?_⟩
  · intro u
    have hk := mem_keys_iff_lookup (collectAssigned now [] pages) u
    unfold keys at hk
    rw [hk, lookup_collectAssigned]
    cases hl : (pages.flatten.filter
        (fun i => decide (i.UpdatedAt < now - 7 * 24 * Hour ∧ i.HTMLURL = u))).getLast? with
    | none =>
      rw [List.getLast?_eq_none_iff, List.filter_eq_nil_iff] at hl
      simp only [List.lookup_nil, ne_eq, not_true_eq_false, false_iff, not_exists, not_and]
      intro i hi h1 h2
      exact hl i hi (decide_eq_true ⟨h1, h2⟩)
    | some x =>
      simp only [ne_eq, reduceCtorEq, not_false_eq_true, true_iff]
      have hx := List.mem_of_getLast?_eq_some hl
      rw [List.mem_filter] at hx
      exact ⟨x, hx.1, by simpa using hx.2⟩
  · intro u a hm
    have hl := lookup_of_mem _ hnd u a hm
    rw [lookup_collectAssigned] at hl
    cases hg : (pages.flatten.filter
        (fun i => decide (i.UpdatedAt < now - 7 * 24 * Hour ∧ i.HTMLURL = u))).getLast? with
    | none =>
      rw [hg] at hl
      simp at hl
    | some x =>
      rw [hg] at hl
      simp only [Option.some.injEq] at hl
      subst hl
      exact ⟨by simp [mapGet, Awaiting.zero], x, rfl, rfl, rfl⟩
  · intro u cr
    have h : staleIssue now ⟨u, now - 8 * 24 * Hour, cr⟩ = true := by
      rw [staleIssue_iff]
      show now - 8 * 24 * Hour < now - 7 * 24 * Hour
      unfold Hour
      omega
    simp only [collectAssigned, assignedPage, h, if_true, mapGet, mapSet, Awaiting.zero,
      List.lookup_nil, Option.getD_none, List.nil_append]
  · intro u cr
    have h : ¬ staleIssue now ⟨u, now - 6 * 24 * Hour, cr⟩ = true := by
      rw [staleIssue_iff]
      show ¬ now - 6 * 24 * Hour < now - 7 * 24 * Hour
      unfold Hour
      omega
    simp only [collectAssigned, assignedPage, h]
    rfl

theorem assigned_collection_keeps_stale_issues_witness :
    (("u", ⟨["assigned to you"], -8 * 24 * Hour, -9 * 24 * Hour⟩) ∈
        collectAssigned 0 [] [[⟨"u", -8 * 24 * Hour, -9 * 24 * Hour⟩]]) ∧
      (⟨["assigned to you"], -8 * 24 * Hour, -9 * 24 * Hour⟩ : Awaiting).Actions =
        List.replicate
          (([[⟨"u", -8 * 24 * Hour, -9 * 24 * Hour⟩]] : List (List Issue)).flatten.filter
            (fun i => decide (i.UpdatedAt < 0 - 7 * 24 * Hour ∧ i.HTMLURL = "u"))).length
          "assigned to you" :=
  ⟨by decide,
    ((assigned_collection_keeps_stale_issues 0
      [[⟨"u", -8 * 24 * Hour, -9 * 24 * Hour⟩]]).2.2.1 "u"
      ⟨["assigned to you"], -8 * 24 * Hour, -9 * 24 * Hour⟩ (by decide)).1⟩

/-- C6: over all pages of review-requested results and for every URL, the
entry of the URL is untouched when no result with that URL was created
strictly before now - 3 days (whatever the results' update instants);
otherwise it gets one "awaiting your review" per such result, appended to its
former actions, and the instants of the last such result.  Keys stay distinct.
A PR created 4 days ago gives one entry with the action "awaiting your
review", a PR created 2 days ago gives none. -/
theorem review_collection_keeps_old_results (now : Int) (m : AwaitingMap)
    (pages : List (List Issue)) (u : String) :
    (pages.flatten.filter
          (fun i => decide (i.CreatedAt < now - 3 * 24 * Hour ∧ i.HTMLURL = u)) = [] →
        (collectReviews now m pages).lookup u = m.lookup u) ∧
      (∀ x, (pages.flatten.filter
            (fun i => decide (i.CreatedAt < now - 3 * 24 * Hour ∧ i.HTMLURL = u))).getLast? =
              some x →
        (collectReviews now m pages).lookup u =
          some ⟨(mapGet m u).Actions ++
            List.replicate (pages.flatten.filter
              (fun i => decide (i.CreatedAt < now - 3 * 24 * Hour ∧ i.HTMLURL = u))).length
              "awaiting your review",
            x.UpdatedAt, x.CreatedAt⟩) ∧
      ((m.map Prod.fst).Nodup → ((collectReviews now m pages).map Prod.fst).Nodup) ∧
      (∀ upd, collectReviews now [] [[⟨u, upd, now - 4 * 24 * Hour⟩]] =
        [(u, ⟨["awaiting your review"], upd, now - 4 * 24 * Hour⟩)]) ∧
      (∀ upd, collectReviews now [] [[⟨u, upd, now - 2 * 24 * Hour⟩]] = []) := by
  refine ⟨?_, ?_, nodup_keys_collectReviews now pages m, ?_, ?_⟩
  · intro h
    rw [lookup_collectReviews, h]
    rfl
  · intro x h
    rw [lookup_collectReviews, h]
  · intro upd
    have h : staleReview now ⟨u, upd, now - 4 * 24 * Hour⟩ = true := by
      rw [staleReview_iff]
      show now - 4 * 24 * Hour < now - 3 * 24 * Hour
      unfold Hour
      omega
    simp only [collectReviews, reviewPage, h, if_true, mapGet, mapSet, Awaiting.zero,
      List.lookup_nil, Option.getD_none, List.nil_append]
  · intro upd
    have h : ¬ staleReview now ⟨u, upd, now - 2 * 24 * Hour⟩ = true := by
      rw [staleReview_iff]
      show ¬ now - 2 * 24 * Hour < now - 3 * 24 * Hour
      unfold Hour
      omega
    simp only [collectReviews, reviewPage, h]
    rfl

theorem review_collection_keeps_old_results_witness :
    (([[⟨"u", -5 * 24 * Hour, -2 * 24 * Hour⟩]] : List (List Issue)).flatten.filter
        (fun i => decide (i.CreatedAt < 0 - 3 * 24 * Hour ∧ i.HTMLURL = "u")) = []) ∧
      (collectReviews 0 [("u", ⟨["assigned to you"], -9, -9⟩)]
          [[⟨"u", -5 * 24 * Hour, -2 * 24 * Hour⟩]]).lookup "u" =
        List.lookup "u" [("u", ⟨["assigned to you"], -9, -9⟩)] :=
  ⟨by decide,
    (review_collection_keeps_old_results 0 [("u", ⟨["assigned to you"], -9, -9⟩)]
      [[⟨"u", -5 * 24 * Hour, -2 * 24 * Hour⟩]] "u").1 (by decide)⟩

/-- C7: when exactly one assigned issue with a URL passes the 7-day test and
exactly one review-requested result with the same URL passes the 3-day test,
the map has a single entry for the URL, with the actions "assigned to you" and
"awaiting your review" in that order and the instants of the review-requested
result; its bullet ends with "assigned to you and awaiting your review". -/
theorem same_url_in_both_collections (now : Int) (assigned reviews : List (List Issue))
    (u : String) (a r : Issue) (humanize : Int → String)
    (ha : assigned.flatten.filter
      (fun i => decide (i.UpdatedAt < now - 7 * 24 * Hour ∧ i.HTMLURL = u)) = [a])
    (hr : reviews.flatten.filter
      (fun i => decide (i.CreatedAt < now - 3 * 24 * Hour ∧ i.HTMLURL = u)) = [r]) :
    (collectAwaiting now assigned reviews).filter (fun p => decide (p.1 = u)) =
        [(u, ⟨["assigned to you", "awaiting your review"], r.UpdatedAt, r.CreatedAt⟩)] ∧
      bullet humanize u ⟨["assigned to you", "awaiting your review"], r.UpdatedAt, r.CreatedAt⟩ =
        "• " ++ u ++ " has been open since " ++ humanize r.CreatedAt ++
          " and hasn't been updated since " ++ humanize r.UpdatedAt ++
          " and is " ++ "assigned to you and awaiting your review" ++ "\n" := by
  constructor
  · apply filter_key_of_lookup
    · exact nodup_keys_collectReviews now reviews _
        (nodup_keys_collectAssigned now assigned [] (by simp [keys]))
    · unfold collectAwaiting
      rw [lookup_collectReviews, hr]
      have h1 : (collectAssigned now [] assigned).lookup u =
          some ⟨["assigned to you"], a.UpdatedAt, a.CreatedAt⟩ := by
        rw [lookup_collectAssigned, ha]
        rfl
      simp only [List.getLast?_singleton, mapGet, h1, Option.getD_some, List.length_singleton,
        List.replicate_one, List.cons_append, List.nil_append]
  · unfold bullet
    have hj : Join ["assigned to you", "awaiting your review"] " and " =
        "assigned to you and awaiting your review" := by decide
    rw [hj]

theorem same_url_in_both_collections_witness :
    (([[⟨"u", -8 * 24 * Hour, -9 * 24 * Hour⟩]] : List (List Issue)).flatten.filter
        (fun i => decide (i.UpdatedAt < 0 - 7 * 24 * Hour ∧ i.HTMLURL = "u")) =
          [⟨"u", -8 * 24 * Hour, -9 * 24 * Hour⟩]) ∧
      (([[⟨"u", -1, -4 * 24 * Hour⟩]] : List (List Issue)).flatten.filter
        (fun i => decide (i.CreatedAt < 0 - 3 * 24 * Hour ∧ i.HTMLURL = "u")) =
          [⟨"u", -1, -4 * 24 * Hour⟩]) ∧
      (collectAwaiting 0 [[⟨"u", -8 * 24 * Hour, -9 * 24 * Hour⟩]]
          [[⟨"u", -1, -4 * 24 * Hour⟩]]).filter (fun p => decide (p.1 = "u")) =
        [("u", ⟨["assigned to you", "awaiting your review"],
          (⟨"u", -1, -4 * 24 * Hour⟩ : Issue).UpdatedAt,
          (⟨"u", -1, -4 * 24 * Hour⟩ : Issue).CreatedAt⟩)] :=
  ⟨by decide, by decide,
    (same_url_in_both_collections 0 [[⟨"u", -8 * 24 * Hour, -9 * 24 * Hour⟩]]
      [[⟨"u", -1, -4 * 24 * Hour⟩]] "u" ⟨"u", -8 * 24 * Hour, -9 * 24 * Hour⟩
      ⟨"u", -1, -4 * 24 * Hour⟩ (fun _ => "a day ago") (by decide) (by decide)).1⟩

/-! ## Message assembly: lemmas -/

theorem foldl_append_init (l : List String) (s : String) :
    List.foldl (fun r t => r ++ t) s l = s ++ List.foldl (fun r t => r ++ t) "" l := by
  induction l generalizing s with
  | nil => simp
  | cons a l ih =>
    rw [List.foldl_cons, ih, List.foldl_cons, ih ("" ++ a), String.empty_append,
      String.append_assoc]

theorem join_cons (a : String) (l : List String) :
    String.join (a :: l) = a ++ String.join l := by
  unfold String.join
  rw [List.foldl_cons, foldl_append_init, String.empty_append]

theorem appendBullets_eq (humanize : Int → String) (order : List (String × Awaiting))
    (s : String) :
    appendBullets humanize s order =
      s ++ String.join (order.map (fun p => bullet humanize p.1 p.2)) := by
  induction order generalizing s with
  | nil => simp [appendBullets, String.join]
  | cons p order ih =>
    rcases p with ⟨u, a⟩
    rw [appendBullets, ih, List.map_cons, join_cons, String.append_assoc]

theorem append_ne_empty (s t : String) (h : s ≠ "") : s ++ t ≠ "" := by
  intro h1
  apply h
  rw [String.ext_iff] at h1 ⊢
  rw [String.data_append] at h1
  exact (List.append_eq_nil.1 h1).1

theorem missingSentence_ne_empty (f : Flags) : missingSentence (missingList f) ≠ some "" := by
  rcases f with ⟨c, i, p⟩
  cases c <;> cases i <;> cases p <;> decide

theorem postMessage_some_iff (msg : String) : postMessage msg = some msg ↔ msg ≠ "" := by
  unfold postMessage
  by_cases h : msg = "" <;> simp [h]

theorem postMessage_none_iff (msg : String) : postMessage msg = none ↔ msg = "" := by
  unfold postMessage
  by_cases h : msg = "" <;> simp [h]

/-! ## Claims on message assembly -/

/-- C8 as stated fails.  In the run where no activity is missing and one
assigned issue awaits, message assembly is not reached with an empty sentence:
the three flags are set, the map has one entry, the sentence builder panics
(the defect recorded for C1), and so the run does not end with an empty final
message and nothing posted after a completed assembly. -/
theorem no_missing_activity_run_panics :
    scanEvents 0 Flags.init
          [[⟨0, "PushEvent"⟩, ⟨0, "IssueCommentEvent"⟩, ⟨0, "PullRequestReviewEvent"⟩]] =
        ⟨true, true, true⟩ ∧
      collectAwaiting 0 [[⟨"u", -8 * 24 * Hour, -9 * 24 * Hour⟩]] [[]] =
        [("u", ⟨["assigned to you"], -8 * 24 * Hour, -9 * 24 * Hour⟩)] ∧
      activitySentence 0
          [[⟨0, "PushEvent"⟩, ⟨0, "IssueCommentEvent"⟩, ⟨0, "PullRequestReviewEvent"⟩]] ≠
        some "" ∧
      runMain (fun _ => "a week ago") 0
          [[⟨0, "PushEvent"⟩, ⟨0, "IssueCommentEvent"⟩, ⟨0, "PullRequestReviewEvent"⟩]]
          [("u", ⟨["assigned to you"], -8 * 24 * Hour, -9 * 24 * Hour⟩)] = none ∧
      runMain (fun _ => "a week ago") 0
          [[⟨0, "PushEvent"⟩, ⟨0, "IssueCommentEvent"⟩, ⟨0, "PullRequestReviewEvent"⟩]]
          [("u", ⟨["assigned to you"], -8 * 24 * Hour, -9 * 24 * Hour⟩)] ≠ some none := by
  decide

/-- C8 (amended): message assembly is never reached with an empty sentence,
and the bullets are never dropped.  Whenever the sentence builder completes,
the sentence is not the empty string; when moreover the awaiting map is not
empty, the final message is the sentence, the preamble and one bullet line per
entry in iteration order, it is not empty, and it is posted. -/
theorem awaiting_bullets_never_dropped (humanize : Int → String) (now : Int)
    (events : List (List Event)) (assigned reviews : List (List Issue)) (s : String)
    (order : List (String × Awaiting))
    (hs : activitySentence now events = some s)
    (hm : collectAwaiting now assigned reviews ≠ [])
    (ho : order.Perm (collectAwaiting now assigned reviews)) :
    (∀ (now1 : Int) (events1 : List (List Event)), activitySentence now1 events1 ≠ some "") ∧
      s ≠ "" ∧
      assembleMessage humanize s order =
        s ++ " Also, the following issues and PRs need your attention:\n" ++
          String.join (order.map (fun p =>
            "• " ++ p.1 ++ " has been open since " ++ humanize p.2.Created ++
              " and hasn't been updated since " ++ humanize p.2.LastUpdated ++
              " and is " ++ " and ".intercalate p.2.Actions ++ "\n")) ∧
      assembleMessage humanize s order ≠ "" ∧
      runMain humanize now events order = some (some (assembleMessage humanize s order)) := by
  have hne : s ≠ "" := by
    intro h
    rw [h] at hs
    exact missingSentence_ne_empty _ hs
  have hord : order ≠ [] := fun h => hm (by rw [h] at ho; exact (List.Perm.nil_eq ho).symm)
  have hl : order.length > 0 := List.length_pos.2 hord
  have he : assembleMessage humanize s order =
      s ++ preamble ++ String.join (order.map (fun p => bullet humanize p.1 p.2)) := by
    unfold assembleMessage
    rw [if_pos ⟨hne, hl⟩, appendBullets_eq]
  have hmsg : assembleMessage humanize s order ≠ "" := by
    rw [he, String.append_assoc]
    exact append_ne_empty _ _ hne
  refine ⟨fun now1 events1 => missingSentence_ne_empty _, hne, he, hmsg, ?_⟩
  unfold runMain
  rw [hs]
  exact congrArg some ((postMessage_some_iff _).2 hmsg)

theorem awaiting_bullets_never_dropped_witness :
    activitySentence 0 [[⟨0, "IssueCommentEvent"⟩]] =
        some "No commits pushed or PRs reviewed in the last day!" ∧
      collectAwaiting 0 [[⟨"u", -8 * 24 * Hour, -9 * 24 * Hour⟩]] [[]] ≠ [] ∧
      runMain (fun _ => "a week ago") 0 [[⟨0, "IssueCommentEvent"⟩]]
          [("u", ⟨["assigned to you"], -8 * 24 * Hour, -9 * 24 * Hour⟩)] =
        some (some (assembleMessage (fun _ => "a week ago")
          "No commits pushed or PRs reviewed in the last day!"
          [("u", ⟨["assigned to you"], -8 * 24 * Hour, -9 * 24 * Hour⟩)])) :=
  ⟨by decide, by decide,
    (awaiting_bullets_never_dropped (fun _ => "a week ago") 0 [[⟨0, "IssueCommentEvent"⟩]]
      [[⟨"u", -8 * 24 * Hour, -9 * 24 * Hour⟩]] [[]]
      "No commits pushed or PRs reviewed in the last day!"
      [("u", ⟨["assigned to you"], -8 * 24 * Hour, -9 * 24 * Hour⟩)]
      (by decide) (by decide)
      ((by decide : [("u", (⟨["assigned to you"], -8 * 24 * Hour, -9 * 24 * Hour⟩ : Awaiting))] =
        collectAwaiting 0 [[⟨"u", -8 * 24 * Hour, -9 * 24 * Hour⟩]] [[]]) ▸
          List.Perm.refl _)).2.2.2.2⟩

/-- C9: for a sentence that is not empty, a final message exists; when the map
is empty it is the sentence; when the map is not empty it is the sentence, the
literal " Also, the following issues and PRs need your attention:" with a line
feed, and one bullet line per entry in some order, each of the stated form;
and a message is posted iff it is not the empty string. -/
theorem nonempty_sentence_message (humanize : Int → String) (s : String) (m : AwaitingMap)
    (hs : s ≠ "") :
    FinalMessage humanize s m (assembleMessage humanize s m) ∧
      ∀ msg, FinalMessage humanize s m msg →
        (m = [] → msg = s) ∧
          (m ≠ [] → ∃ order : List (String × Awaiting), order.Perm m ∧
            msg = s ++ " Also, the following issues and PRs need your attention:\n" ++
              String.join (order.map (fun p =>
                "• " ++ p.1 ++ " has been open since " ++ humanize p.2.Created ++
                  " and hasn't been updated since " ++ humanize p.2.LastUpdated ++
                  " and is " ++ " and ".intercalate p.2.Actions ++ "\n"))) ∧
          (postMessage msg = some msg ↔ msg ≠ "") ∧ (postMessage msg = none ↔ msg = "") := by
  refine ⟨⟨m, List.Perm.refl m, rfl⟩, ?_⟩
  rintro msg ⟨order, hp, rfl⟩
  refine ⟨?_, ?_, postMessage_some_iff _, postMessage_none_iff _⟩
  · intro hm
    rw [hm] at hp
    rw [List.Perm.eq_nil hp]
    simp [assembleMessage, appendBullets]
  · intro hm
    have ho : order ≠ [] := fun h => hm (by rw [h] at hp; exact (List.Perm.nil_eq hp).symm)
    have hl : order.length > 0 := List.length_pos.2 ho
    refine ⟨order, hp, ?_⟩
    unfold assembleMessage
    rw [if_pos ⟨hs, hl⟩, appendBullets_eq]
    rfl

theorem nonempty_sentence_message_witness :
    ("No PRs reviewed in the last day!" : String) ≠ "" ∧
      FinalMessage (fun _ => "a day ago") "No PRs reviewed in the last day!"
        [("u", ⟨["awaiting your review"], 0, 0⟩)]
        (assembleMessage (fun _ => "a day ago") "No PRs reviewed in the last day!"
          [("u", ⟨["awaiting your review"], 0, 0⟩)]) :=
  ⟨by decide,
    (nonempty_sentence_message (fun _ => "a day ago") "No PRs reviewed in the last day!"
      [("u", ⟨["awaiting your review"], 0, 0⟩)] (by decide)).1⟩

end ActivityNotifier
